import Mathlib

/-!
Verification of the domain-migration tool (`main.py`).

The development shallowly embeds the core of the program:

* the Domain Rewrite Rule, i.e. the regex
  `(https?://)([^/@]+?)test\-domain\.co(?=[:/]|$)` applied case-insensitively
  with `count=1` (`replace_host_suffix_in_url`);
* the cookie host rule (`replace_cookie_host`);
* the per-store rewriters (`rewrite_history`, `rewrite_bookmarks`,
  `rewrite_form_history`, `rewrite_cookies`, `rewrite_logins`) over list models
  of the SQLite tables and the JSON login list, with the single injected
  `Option Err` argument standing for a failure of the underlying store layer
  during the write transaction (in the real program: a raised exception);
* the orchestrator `rewrite_all`;
* a small filesystem model for `backup_file`, `copytree_verbose` and
  `restore_profile`.

Strings are modelled as `List Char` internally; SQL `LIKE '%x%'` is
case-insensitive containment, SQL `=` on TEXT is exact equality, and Python's
`in` / `startswith` / `endswith` keep their exact/(lower-cased) semantics.
-/

/-- Error taxonomy of the operations that can fail. -/
inductive Err where
  | alreadyExists
  | notFound
  | dbError
deriving DecidableEq, Repr

def OLD_DOMAIN_SUFFIX : String := "test-domain.co"

def NEW_DOMAIN_SUFFIX : String := "test-domain.co.uk"

def OLDl : List Char := OLD_DOMAIN_SUFFIX.toList

def NEWl : List Char := NEW_DOMAIN_SUFFIX.toList

/-- Case-insensitive prefix strip: if the lower-cased characters of `cs` start
with the lower-cased characters of the pattern, return the remainder. -/
def stripPrefixCI : List Char → List Char → Option (List Char)
  | [], cs => some cs
  | _ :: _, [] => none
  | p :: ps, c :: cs => if p.toLower == c.toLower then stripPrefixCI ps cs else none

/-- Case-insensitive containment, the model of SQL `LIKE '%pat%'`. -/
def containsCI (pat : List Char) : List Char → Bool
  | [] => pat.isEmpty
  | c :: cs => (stripPrefixCI pat (c :: cs)).isSome || containsCI pat cs

/-- Case-sensitive containment, the model of Python's `in` on strings. -/
def containsSub (pat : List Char) : List Char → Bool
  | [] => pat.isEmpty
  | c :: cs => pat.isPrefixOf (c :: cs) || containsSub pat cs

/-- Character class `[^/@]` of the host part of the regex. -/
def hostChar (c : Char) : Bool := !(c == '/') && !(c == '@')

/-- The regex lookahead `(?=[:/]|$)`.  Without `re.MULTILINE`, Python's `$`
matches at the end of the input and also just before a newline that ends the
input, so the lookahead succeeds on an empty remainder, on a remainder that is
exactly a final `'\n'`, and on a remainder starting with `':'` or `'/'`. -/
def boundaryOk : List Char → Bool
  | [] => true
  | [c] => c == ':' || c == '/' || c == '\n'
  | c :: _ :: _ => c == ':' || c == '/'

/-- Lazy scan of `([^/@]+?)` followed by the old suffix and the lookahead:
consume one host character, then test the old suffix (case-insensitively) with
the boundary lookahead at the current point; on failure consume the next host
character.  Returns the consumed group-2 characters (original casing) and the
remainder after the old suffix. -/
def scanHost : List Char → List Char → Option (List Char × List Char)
  | _, [] => none
  | acc, c :: cs =>
    if hostChar c then
      match stripPrefixCI OLDl cs with
      | some rest =>
        if boundaryOk rest then some ((c :: acc).reverse, rest)
        else scanHost (c :: acc) cs
      | none => scanHost (c :: acc) cs
    else none

def HTTPSl : List Char := ['h', 't', 't', 'p', 's', ':', '/', '/']

def HTTPl : List Char := ['h', 't', 't', 'p', ':', '/', '/']

/-- Match `https?://` case-insensitively at the front (the `s?` is greedy),
returning the matched characters in their original casing and the rest. -/
def schemeSplit (cs : List Char) : Option (List Char × List Char) :=
  if (stripPrefixCI HTTPSl cs).isSome then some (cs.take 8, cs.drop 8)
  else if (stripPrefixCI HTTPl cs).isSome then some (cs.take 7, cs.drop 7)
  else none

/-- Try the whole pattern anchored at the front; on success produce the
rewritten string: `group1 ++ group2 ++ NEW_DOMAIN_SUFFIX ++ remainder`. -/
def tryAt (cs : List Char) : Option (List Char) :=
  match schemeSplit cs with
  | none => none
  | some (sch, rest) =>
    match scanHost [] rest with
    | none => none
    | some (g2, tail) => some (sch ++ g2 ++ NEWl ++ tail)

/-- Regex search with a single substitution (`subn(_, url, count=1)`): try the
pattern at every position from the left and replace the first match. -/
def findRepl : List Char → Option (List Char)
  | [] => none
  | c :: cs =>
    match tryAt (c :: cs) with
    | some res => some res
    | none => (findRepl cs).map (fun r => c :: r)

/-- `replace_host_suffix_in_url` of the source: the Domain Rewrite Rule.
`none` is the "no match" outcome. -/
def replace_host_suffix_in_url (url : String) : Option String :=
  (findRepl url.toList).map String.mk

/-- Case-insensitive `endswith`, as `core.lower().endswith(OLD_DOMAIN_SUFFIX)`. -/
def endsWithCI (pat cs : List Char) : Bool :=
  (stripPrefixCI pat.reverse cs.reverse).isSome

/-- List-level body of `replace_cookie_host` of the source: strip a leading
`'.'`, test the plain case-insensitive suffix, splice the new suffix, and
re-attach the dot. -/
def replaceCookieHostL (l : List Char) : Option (List Char) :=
  match l with
  | [] => none
  | c :: cs =>
    let dot : Bool := c == '.'
    let core : List Char := if dot then cs else c :: cs
    if endsWithCI OLDl core then
      some ((if dot then ['.'] else []) ++ core.take (core.length - OLDl.length) ++ NEWl)
    else none

/-- `replace_cookie_host` of the source (empty host yields `None`). -/
def replace_cookie_host (h : String) : Option String :=
  (replaceCookieHostL h.toList).map String.mk

example : replace_host_suffix_in_url "https://x.test-domain.co/a" =
    some "https://x.test-domain.co.uk/a" := by decide

example : replace_host_suffix_in_url "https://x.test-domain.co.uk/a" = none := by decide

example : replace_host_suffix_in_url "https://x.test-domain.co:8080" =
    some "https://x.test-domain.co.uk:8080" := by decide

example : replace_host_suffix_in_url "x.test-domain.co/a" = none := by decide

example : replace_host_suffix_in_url "https://a.test-domain.co\n" =
    some "https://a.test-domain.co.uk\n" := by decide

example : replace_host_suffix_in_url "https://a.test-domain.co\nx" = none := by decide

example : replace_cookie_host ".x.test-domain.co" = some ".x.test-domain.co.uk" := by decide

example : replace_cookie_host "x.test-domain.co.uk" = none := by decide

/-- SQLite `REPLACE(s, pat, rep)`: case-sensitive, left-to-right,
non-overlapping replacement of every occurrence (used by the best-effort
`moz_origins` pass). -/
def replaceAll (pat rep : List Char) : List Char → List Char
  | [] => []
  | c :: cs =>
    if pat ≠ [] ∧ pat.isPrefixOf (c :: cs) then
      rep ++ replaceAll pat rep (cs.drop (pat.length - 1))
    else c :: replaceAll pat rep cs
termination_by l => l.length
decreasing_by
  · have h1 : (cs.drop (pat.length - 1)).length ≤ cs.length := by
      rw [List.length_drop]; omega
    simp only [List.length_cons]; omega
  · simp

/-! ## Cookie store model

A row of `moz_cookies`: `id, name, host, path, originAttributes`. -/

structure CookieRow where
  id : Nat
  name : String
  host : String
  path : String
  oa : String
deriving DecidableEq, Repr

/-- The Uniqueness Key `{name, host, path, originAttributes}`. -/
def keyOf (r : CookieRow) : String × String × String × String :=
  (r.name, r.host, r.path, r.oa)

/-- The `will_update` list of `rewrite_cookies`: rows whose host matches the
`LIKE` pre-filter and for which `replace_cookie_host` yields a changed host. -/
def willUpdate (store : List CookieRow) : List (CookieRow × String) :=
  (store.filter (fun r => containsCI OLDl r.host.toList)).filterMap
    (fun r =>
      match replace_cookie_host r.host with
      | some nh => if nh ≠ r.host then some (r, nh) else none
      | none => none)

/-- The probe `SELECT id FROM moz_cookies WHERE name=? AND host=? AND path=?
AND originAttributes=? LIMIT 1`. -/
def probe (store : List CookieRow) (name nh path oa : String) : Option CookieRow :=
  store.find? (fun x => x.name == name && x.host == nh && x.path == path && x.oa == oa)

/-- The mutate-mode loop of `rewrite_cookies`: for each planned update, if a
row already holds the target Uniqueness Key, delete it (by id) first, then set
the source row's host; `updated` and `conflicts_resolved` are accumulated. -/
def applyUpdates : List (CookieRow × String) → List CookieRow → Nat → Nat →
    List CookieRow × Nat × Nat
  | [], store, upd, conf => (store, upd, conf)
  | (r, nh) :: rest, store, upd, conf =>
    match probe store r.name nh r.path r.oa with
    | some victim =>
      let store1 := store.filter (fun x => !(x.id == victim.id))
      let store2 := store1.map (fun x => if x.id = r.id then { x with host := nh } else x)
      applyUpdates rest store2 (upd + 1) (conf + 1)
    | none =>
      let store2 := store.map (fun x => if x.id = r.id then { x with host := nh } else x)
      applyUpdates rest store2 (upd + 1) conf

/-- `rewrite_cookies` of the source over the list model.  Returns
`(store after, candidates, updated, conflicts_resolved)`.  `err` injects a
failure of the store layer inside the `try` block of the mutate path: the
function catches it, rolls the transaction back and reports `(0, 0)`. -/
def rewrite_cookies (store : List CookieRow) (dry : Bool) (err : Option Err) :
    List CookieRow × Nat × Nat × Nat :=
  let wu := willUpdate store
  let cand := wu.length
  if dry then (store, cand, 0, 0)
  else
    match err with
    | some _ => (store, 0, 0, 0)
    | none =>
      let (store', upd, conf) := applyUpdates wu store 0 0
      (store', cand, upd, conf)

/-- At most one live row per id. -/
abbrev nodupIds (store : List CookieRow) : Prop :=
  store.Pairwise (fun a b => a.id ≠ b.id)

/-- The uniqueness invariant: at most one live row per Uniqueness Key. -/
abbrev uniqKeys (store : List CookieRow) : Prop :=
  store.Pairwise (fun a b => keyOf a ≠ keyOf b)

/-! ## History / bookmarks / form history / logins models -/

/-- `moz_places` rows matching `url LIKE '%old%'` (the candidate pre-filter). -/
def histRows (ps : List (Nat × String)) : List (Nat × String) :=
  ps.filter (fun r => containsCI OLDl r.2.toList)

/-- The mutate loop of `rewrite_history` on `moz_places`: update every
candidate row whose URL the rule actually changes. -/
def applyUrlRewrites (ps : List (Nat × String)) : List (Nat × String) :=
  ps.map fun r =>
    if containsCI OLDl r.2.toList then
      match replace_host_suffix_in_url r.2 with
      | some nu => if nu ≠ r.2 then (r.1, nu) else r
      | none => r
    else r

/-- Number of history rows actually updated. -/
def histUpdated (ps : List (Nat × String)) : Nat :=
  ((histRows ps).filterMap fun r =>
    match replace_host_suffix_in_url r.2 with
    | some nu => if nu ≠ r.2 then some () else none
    | none => none).length

/-- The best-effort secondary pass on `moz_origins`
(`id, host, rev_host` rows): blanket `REPLACE` on `host` and reversed
`REPLACE` on `rev_host`. -/
def originsRewrite (os : List (Nat × String × String)) : List (Nat × String × String) :=
  os.map fun o =>
    (o.1, String.mk (replaceAll OLDl NEWl o.2.1.toList),
      String.mk (replaceAll OLDl.reverse NEWl.reverse o.2.2.toList))

/-- `rewrite_history` of the source.  `err` injects a failure of the primary
write transaction (rolled back and re-raised); `secErr` injects a failure of
the best-effort `moz_origins` transaction (rolled back and swallowed). -/
def rewrite_history (ps : List (Nat × String)) (os : List (Nat × String × String))
    (dry : Bool) (err secErr : Option Err) :
    (List (Nat × String) × List (Nat × String × String)) × Except Err (Nat × Nat) :=
  let cand := (histRows ps).length
  if dry then ((ps, os), .ok (cand, 0))
  else
    match err with
    | some e => ((ps, os), .error e)
    | none =>
      let ps' := applyUrlRewrites ps
      let os' :=
        match secErr with
        | some _ => os
        | none => originsRewrite os
      ((ps', os'), .ok (cand, histUpdated ps))

/-- The joined candidate rows of `rewrite_bookmarks`: one `moz_places` row per
bookmark entry whose URL matches the `LIKE` pre-filter. -/
def bmkRows (ps : List (Nat × String)) (bm : List Nat) : List (Nat × String) :=
  (bm.filterMap fun fk => ps.find? (fun r => r.1 == fk)).filter
    (fun r => containsCI OLDl r.2.toList)

/-- `rewrite_bookmarks` of the source (operating on the same `moz_places`
store as `rewrite_history`). -/
def rewrite_bookmarks (ps : List (Nat × String)) (bm : List Nat) (dry : Bool)
    (err : Option Err) : List (Nat × String) × Except Err (Nat × Nat) :=
  let rows := bmkRows ps bm
  let cand := rows.length
  if dry then (ps, .ok (cand, 0))
  else
    match err with
    | some e => (ps, .error e)
    | none =>
      let updRows := rows.filterMap fun r =>
        match replace_host_suffix_in_url r.2 with
        | some nu => if nu ≠ r.2 then some (r.1, nu) else none
        | none => none
      let ps' := ps.map fun r =>
        match updRows.find? (fun u => u.1 == r.1) with
        | some u => (r.1, u.2)
        | none => r
      (ps', .ok (cand, updRows.length))

/-- `rewrite_form_history` of the source over `moz_formhistory`
(`id, origin` rows); empty origins are skipped in the update loop. -/
def rewrite_form_history (fh : List (Nat × String)) (dry : Bool) (err : Option Err) :
    List (Nat × String) × Except Err (Nat × Nat) :=
  let rows := fh.filter (fun r => containsCI OLDl r.2.toList)
  let cand := rows.length
  if dry then (fh, .ok (cand, 0))
  else
    match err with
    | some e => (fh, .error e)
    | none =>
      let fh' := fh.map fun r =>
        if r.2 ≠ "" ∧ containsCI OLDl r.2.toList then
          match replace_host_suffix_in_url r.2 with
          | some nu => if nu ≠ r.2 then (r.1, nu) else r
          | none => r
        else r
      let upd := (rows.filterMap fun r =>
        if r.2 ≠ "" then
          match replace_host_suffix_in_url r.2 with
          | some nu => if nu ≠ r.2 then some () else none
          | none => none
        else none).length
      (fh', .ok (cand, upd))

/-- A record of `logins.json`: the three URL-bearing fields the source
touches (`hostname`, `formSubmitURL`, `httpRealm`). -/
structure Login where
  hostname : Option String
  formSubmitURL : Option String
  httpRealm : Option String
deriving DecidableEq, Repr

/-- Rewrite of one login field.  `realmMode` adds the
`startswith(("http://", "https://"))` guard of the `httpRealm` field; the
candidate test is Python's case-sensitive `in`.  Returns
`(new value, candidate increment, updated increment)`. -/
def rewriteField (v : Option String) (realmMode : Bool) : Option String × Nat × Nat :=
  match v with
  | none => (none, 0, 0)
  | some s =>
    if s != "" && (!realmMode || "http://".isPrefixOf s || "https://".isPrefixOf s)
        && containsSub OLDl s.toList then
      let ns := (replace_host_suffix_in_url s).getD s
      (some ns, 1, if ns ≠ s then 1 else 0)
    else (some s, 0, 0)

/-- Rewrite of one login record over its three fields. -/
def rewriteLogin (l : Login) : Login × Nat × Nat :=
  let (h, c1, u1) := rewriteField l.hostname false
  let (f, c2, u2) := rewriteField l.formSubmitURL false
  let (r, c3, u3) := rewriteField l.httpRealm true
  (⟨h, f, r⟩, c1 + c2 + c3, u1 + u2 + u3)

/-- In-memory rewrite of the whole login list with accumulated counts. -/
def rewriteLogins : List Login → List Login × Nat × Nat
  | [] => ([], 0, 0)
  | l :: rest =>
    let (l', c, u) := rewriteLogin l
    let (rest', cr, ur) := rewriteLogins rest
    (l' :: rest', c + cr, u + ur)

/-- `rewrite_logins` of the source: in dry-run mode the file is not replaced,
so the persisted store is unchanged and `(cand, 0)` is returned; in mutate
mode the whole structure is serialized back. -/
def rewrite_logins (ls : List Login) (dry : Bool) (err : Option Err) :
    List Login × Except Err (Nat × Nat) :=
  let (ls', c, u) := rewriteLogins ls
  if dry then (ls, .ok (c, 0))
  else
    match err with
    | some e => (ls, .error e)
    | none => (ls', .ok (c, u))

/-! ## Orchestrator -/

/-- The stores of one profile. -/
structure Profile where
  places : List (Nat × String)
  origins : List (Nat × String × String)
  bmarks : List Nat
  formhist : List (Nat × String)
  cookies : List CookieRow
  logins : List Login
deriving DecidableEq, Repr

/-- Failure injection per store-level operation. -/
structure ErrInj where
  hist : Option Err
  bmk : Option Err
  form : Option Err
  cook : Option Err
  login : Option Err
  histSec : Option Err
deriving DecidableEq, Repr

/-- `rewrite_all` of the source: history, bookmarks, form history, cookies,
logins, in that order; an error from any step stops the run and is surfaced,
except inside `rewrite_cookies`, which swallows its own failure.  Returns the
final profile together with either the aggregated `(candidates, updated)`
totals or the surfaced error. -/
def rewrite_all (p : Profile) (dry : Bool) (e : ErrInj) :
    Profile × Except Err (Nat × Nat) :=
  match rewrite_history p.places p.origins dry e.hist e.histSec with
  | ((ps1, os1), .error er) => ({ p with places := ps1, origins := os1 }, .error er)
  | ((ps1, os1), .ok (c1, u1)) =>
    match rewrite_bookmarks ps1 p.bmarks dry e.bmk with
    | (ps2, .error er) => ({ p with places := ps2, origins := os1 }, .error er)
    | (ps2, .ok (c2, u2)) =>
      match rewrite_form_history p.formhist dry e.form with
      | (fh1, .error er) =>
        ({ p with places := ps2, origins := os1, formhist := fh1 }, .error er)
      | (fh1, .ok (c3, u3)) =>
        let (cst, c4, u4, _) := rewrite_cookies p.cookies dry e.cook
        match rewrite_logins p.logins dry e.login with
        | (lg, .error er) =>
          ({ p with
              places := ps2
              origins := os1
              formhist := fh1
              cookies := cst
              logins := lg }, .error er)
        | (lg, .ok (c5, u5)) =>
          ({ p with
              places := ps2
              origins := os1
              formhist := fh1
              cookies := cst
              logins := lg },
            .ok (c1 + c2 + c3 + c4 + c5, u1 + u2 + u3 + u4 + u5))

/-! ## Filesystem model for the snapshot and archive operations

Paths map to entries; a directory is a flat bag of named entries.  `setFS`
overwrites an existing binding (the semantics of `shutil.copy2` on an
existing destination file). -/

inductive Entry where
  | file (content : String)
  | dir (entries : List (String × String))
deriving DecidableEq, Repr

abbrev FS := List (String × Entry)

def lookupFS : FS → String → Option Entry
  | [], _ => none
  | (q, x) :: fs, p => if q = p then some x else lookupFS fs p

def setFS : FS → String → Entry → FS
  | [], p, e => [(p, e)]
  | (q, x) :: fs, p, e => if q = p then (p, e) :: fs else (q, x) :: setFS fs p e

/-- Is there a directory at `p`? (`exists()` together with `is_dir()`.) -/
def isDirAt (fs : FS) (p : String) : Bool :=
  match lookupFS fs p with
  | some (.dir _) => true
  | _ => false

/-- `copytree_verbose` of the source: refuse an existing destination, then
recursively copy the source directory. -/
def copytree_verbose (fs : FS) (src dst : String) : FS × Option Err :=
  if (lookupFS fs dst).isSome then (fs, some .alreadyExists)
  else
    match lookupFS fs src with
    | some (.dir d) => (setFS fs dst (.dir d), none)
    | _ => (fs, some .notFound)

/-- `backup_file` of the source: compute the timestamped destination name and
copy with `shutil.copy2`, which overwrites an existing destination without
any check. -/
def backup_file (fs : FS) (path ts : String) : FS × Option Err :=
  let b := path ++ ".pre_migration_" ++ ts ++ ".bak"
  match lookupFS fs path with
  | some (.file c) => (setFS fs b (.file c), none)
  | _ => (fs, some .notFound)

/-- `restore_profile` of the source: require the backup source to be an
existing directory, snapshot the current target with `copytree_verbose`,
empty the target, then copy every entry of the source into it.  On error the
filesystem reached so far is returned, so an early failure leaves everything
untouched. -/
def restore_profile (fs : FS) (src prof ts : String) : FS × Option Err :=
  match lookupFS fs src with
  | some (.dir srcd) =>
    let pre := prof ++ "-pre-restore-" ++ ts
    match copytree_verbose fs prof pre with
    | (fs1, some er) => (fs1, some er)
    | (fs1, none) =>
      let fs2 := setFS fs1 prof (Entry.dir [])
      let fs3 := setFS fs2 prof (Entry.dir srcd)
      (fs3, none)
  | _ => (fs, some Err.notFound)

/-! Scratch checks of the concrete scenarios. -/

def rowA : CookieRow := ⟨1, "sid", ".oldco.test-domain.co", "/", ""⟩

def rowB : CookieRow := ⟨2, "sid", ".oldco.test-domain.co.uk", "/", ""⟩

def rowA' : CookieRow := ⟨1, "sid", ".oldco.test-domain.co.uk", "/", ""⟩

example : rewrite_cookies [rowA, rowB] false none = ([rowA'], 1, 1, 1) := by decide

example : rewrite_cookies [⟨1, "n", "x.test-domain.co.uk", "/", ""⟩] false none =
    ([⟨1, "n", "x.test-domain.co.uk", "/", ""⟩], 0, 0, 0) := by decide

example : containsCI OLDl "x.test-domain.co.uk".toList = true := by decide

/-! ## Assoc-list lemmas for the filesystem model -/

theorem lookup_setFS (fs : FS) (p q : String) (e : Entry) :
    lookupFS (setFS fs p e) q = if p = q then some e else lookupFS fs q := by
  induction fs with
  | nil => simp [setFS, lookupFS]
  | cons a fs ih =>
    obtain ⟨a1, a2⟩ := a
    by_cases h1 : a1 = p
    · subst h1
      by_cases h2 : a1 = q <;> simp [setFS, lookupFS, h2]
    · by_cases h2 : a1 = q
      · subst h2
        have : ¬ p = a1 := fun h => h1 h.symm
        simp [setFS, lookupFS, h1, this]
      · simp [setFS, lookupFS, h1, h2, ih]

/-! ## C7: simulate mode is pure -/

/-- C7: in simulate (dry-run) mode every rewriter returns its store unchanged
(zero writes, deletes or file replacements at the record level), reports
`updated_count = 0`, and a subsequent mutate-mode run on the store returned by
the simulate run coincides with a mutate-mode run on the original store, so it
observes the same `(candidate_count, updated_count)`. -/
theorem simulate_mode_pure (ps : List (Nat × String)) (os : List (Nat × String × String))
    (bm : List Nat) (fh : List (Nat × String)) (cs : List CookieRow) (ls : List Login) :
    rewrite_history ps os true none none = ((ps, os), .ok ((histRows ps).length, 0)) ∧
    rewrite_bookmarks ps bm true none = (ps, .ok ((bmkRows ps bm).length, 0)) ∧
    rewrite_form_history fh true none =
      (fh, .ok ((fh.filter (fun r => containsCI OLDl r.2.toList)).length, 0)) ∧
    rewrite_cookies cs true none = (cs, (willUpdate cs).length, 0, 0) ∧
    (rewrite_logins ls true none).1 = ls ∧
    (rewrite_logins ls true none).2 = .ok ((rewriteLogins ls).2.1, 0) ∧
    rewrite_history (rewrite_history ps os true none none).1.1
        (rewrite_history ps os true none none).1.2 false none none =
      rewrite_history ps os false none none ∧
    rewrite_cookies (rewrite_cookies cs true none).1 false none =
      rewrite_cookies cs false none ∧
    rewrite_logins (rewrite_logins ls true none).1 false none =
      rewrite_logins ls false none := by
  rcases hl : rewriteLogins ls with ⟨ls', c, u⟩
  refine ⟨rfl, rfl, rfl, rfl, ?_, ?_, rfl, rfl, ?_⟩ <;>
    simp [rewrite_logins, hl]

/-! ## C5: existence check of the snapshot primitives -/

/-- C5 (amended): the directory-copy primitive `copytree_verbose` fails with
`AlreadyExists` before any mutation whenever its destination exists, but the
per-store file snapshot `backup_file` performs no existence check at all: it
can never report `AlreadyExists` (it overwrites an existing destination). -/
theorem copytree_checks_backup_does_not (fs : FS) (src dst path ts : String)
    (h : (lookupFS fs dst).isSome = true) :
    copytree_verbose fs src dst = (fs, some Err.alreadyExists) ∧
    (backup_file fs path ts).2 ≠ some Err.alreadyExists := by
  constructor
  · simp [copytree_verbose, h]
  · rcases h' : lookupFS fs path with _ | (c | d) <;> simp [backup_file, h']

theorem copytree_checks_backup_does_not_witness :
    copytree_verbose [("d", Entry.dir [])] "s" "d" =
      ([("d", Entry.dir [])], some Err.alreadyExists) ∧
    (backup_file [("d", Entry.dir [])] "p" "t").2 ≠ some Err.alreadyExists :=
  copytree_checks_backup_does_not [("d", Entry.dir [])] "s" "d" "p" "t" (by decide)

/-- C5 counterexample: with a file already sitting at the computed snapshot
destination, `backup_file` does not fail with `AlreadyExists` — it succeeds
and silently overwrites the existing snapshot. -/
theorem backup_file_overwrites_cex :
    (backup_file [("db", Entry.file "v1"),
        ("db.pre_migration_T.bak", Entry.file "old")] "db" "T").2 = none ∧
    lookupFS (backup_file [("db", Entry.file "v1"),
        ("db.pre_migration_T.bak", Entry.file "old")] "db" "T").1
      "db.pre_migration_T.bak" = some (Entry.file "v1") := by decide

/-! ## C6: restore ordering -/

/-- C6: functional rendering of the restore ordering.  If the backup source
is missing or not a directory, `restore_profile` fails with `NotFound` and the
filesystem is untouched (so the failure precedes the snapshot and any
deletion).  On success the pre-restore snapshot holds the target directory's
contents as they were *before* the deletion step (snapshot before delete), and
the target ends up with exactly the source's entries (delete before copy). -/
theorem restore_profile_ordering (fs : FS) (src prof ts : String) :
    (isDirAt fs src = false → restore_profile fs src prof ts = (fs, some Err.notFound)) ∧
    (∀ srcd profd,
      lookupFS fs src = some (Entry.dir srcd) →
      lookupFS fs prof = some (Entry.dir profd) →
      lookupFS fs (prof ++ "-pre-restore-" ++ ts) = none →
      ∃ fs1, restore_profile fs src prof ts = (fs1, none) ∧
        lookupFS fs1 (prof ++ "-pre-restore-" ++ ts) = some (Entry.dir profd) ∧
        lookupFS fs1 prof = some (Entry.dir srcd)) := by
  constructor
  · intro h
    rcases h' : lookupFS fs src with _ | (c | d) <;>
      simp [restore_profile, isDirAt, h'] at h ⊢
  · intro srcd profd hsrc hprof hpre
    have hpp : ¬ (prof ++ "-pre-restore-" ++ ts = prof) := by
      intro h
      have h2 := congrArg String.length h
      have h3 : String.length "-pre-restore-" = 13 := rfl
      simp [String.length_append] at h2
      omega
    refine ⟨setFS (setFS (setFS fs (prof ++ "-pre-restore-" ++ ts) (Entry.dir profd))
        prof (Entry.dir [])) prof (Entry.dir srcd), ?_, ?_, ?_⟩
    · simp [restore_profile, hsrc, copytree_verbose, hpre, hprof]
    · have hpp2 : ¬ (prof = prof ++ "-pre-restore-" ++ ts) := fun h => hpp h.symm
      simp [lookup_setFS, hpp, hpp2]
    · simp [lookup_setFS]

theorem restore_profile_ordering_witness :
    ∃ fs1,
      restore_profile [("bak", Entry.dir [("a", "1")]), ("prof", Entry.dir [("b", "2")])]
        "bak" "prof" "T" = (fs1, none) ∧
      lookupFS fs1 ("prof" ++ "-pre-restore-" ++ "T") =
        some (Entry.dir [("b", "2")]) ∧
      lookupFS fs1 "prof" = some (Entry.dir [("a", "1")]) :=
  (restore_profile_ordering
      [("bak", Entry.dir [("a", "1")]), ("prof", Entry.dir [("b", "2")])]
      "bak" "prof" "T").2 [("a", "1")] [("b", "2")] (by decide) (by decide) (by decide)

/-! ## C2: the rule guards only the right-hand boundary -/

/-- Is there a case-insensitive occurrence of the old suffix at this very
position, with the boundary lookahead satisfied? -/
def validOccHere (cs : List Char) : Bool :=
  match stripPrefixCI OLDl cs with
  | some rest => boundaryOk rest
  | none => false

/-- No position of the string carries a boundary-valid occurrence of the old
suffix. -/
def noValidOcc : List Char → Bool
  | [] => true
  | c :: cs => !validOccHere (c :: cs) && noValidOcc cs

theorem noValidOcc_tail {c : Char} {cs : List Char}
    (h : noValidOcc (c :: cs) = true) : noValidOcc cs = true := by
  simp [noValidOcc, Bool.and_eq_true] at h
  exact h.2

theorem validOcc_false_of_noValidOcc (cs : List Char) (h : noValidOcc cs = true) :
    validOccHere cs = false := by
  cases cs with
  | nil => decide
  | cons c cs =>
    simp [noValidOcc, Bool.and_eq_true] at h
    simpa using h.1

theorem noValidOcc_drop (n : Nat) (cs : List Char) (h : noValidOcc cs = true) :
    noValidOcc (cs.drop n) = true := by
  induction cs generalizing n with
  | nil => simpa using h
  | cons c cs ih =>
    cases n with
    | zero => simpa using h
    | succ n => exact ih n (noValidOcc_tail h)

theorem scanHost_none (cs : List Char) : ∀ acc, noValidOcc cs = true →
    scanHost acc cs = none := by
  induction cs with
  | nil => intro acc _; rfl
  | cons c cs ih =>
    intro acc h
    have ht : noValidOcc cs = true := noValidOcc_tail h
    have hv : validOccHere cs = false := validOcc_false_of_noValidOcc cs ht
    rcases h1 : stripPrefixCI OLDl cs with _ | rest
    · by_cases hc : hostChar c <;> simp [scanHost, hc, h1, ih _ ht]
    · have hb : boundaryOk rest = false := by
        simpa [validOccHere, h1] using hv
      by_cases hc : hostChar c <;> simp [scanHost, hc, h1, hb, ih _ ht]

theorem findRepl_none (cs : List Char) (h : noValidOcc cs = true) :
    findRepl cs = none := by
  induction cs with
  | nil => rfl
  | cons c cs ih =>
    have ht : noValidOcc cs = true := noValidOcc_tail h
    have h8 : scanHost [] (cs.drop 7) = none :=
      scanHost_none _ _ (noValidOcc_drop 7 _ ht)
    have h7 : scanHost [] (cs.drop 6) = none :=
      scanHost_none _ _ (noValidOcc_drop 6 _ ht)
    have htry : tryAt (c :: cs) = none := by
      by_cases hA : (stripPrefixCI HTTPSl (c :: cs)).isSome
      · simp [tryAt, schemeSplit, hA, h8]
      · by_cases hB : (stripPrefixCI HTTPl (c :: cs)).isSome
        · simp [tryAt, schemeSplit, hA, hB, h7]
        · simp [tryAt, schemeSplit, hA, hB]
    simp [findRepl, htry, ih ht]

/-- C2 (amended): the Domain Rewrite Rule enforces only the right-hand
boundary.  Whenever no position of the value carries a case-insensitive
occurrence of the old suffix followed by `:`, `/`, the end of the string, or
a newline that ends the string (Python's `$`), the rule reports no match —
even if the raw substring is present.  (The left-hand label-boundary guard
claimed by the spec does not exist; see the counterexample.) -/
theorem no_match_without_right_boundary (url : String)
    (h : noValidOcc url.toList = true) :
    replace_host_suffix_in_url url = none := by
  unfold replace_host_suffix_in_url
  rw [findRepl_none _ h]
  rfl

theorem no_match_without_right_boundary_witness :
    noValidOcc "https://a.test-domain.code".toList = true ∧
    replace_host_suffix_in_url "https://a.test-domain.code" = none :=
  ⟨by decide, no_match_without_right_boundary _ (by decide)⟩

/-- C2 counterexample: a URL containing `nottest-domain.co/path` IS rewritten
(the rule has no left label-boundary guard), and as a history record it is
both counted and updated, with its stored value changed. -/
theorem left_boundary_not_guarded_cex :
    replace_host_suffix_in_url "https://nottest-domain.co/path" =
      some "https://nottest-domain.co.uk/path" ∧
    rewrite_history [(1, "https://nottest-domain.co/path")] [] false none none =
      (([(1, "https://nottest-domain.co.uk/path")], []), .ok (1, 1)) :=
  ⟨by decide, by rfl⟩

/-! ## C3: what the rule actually replaces -/

theorem stripPrefixCI_append_self (p t : List Char) :
    stripPrefixCI p (p ++ t) = some t := by
  induction p with
  | nil => rfl
  | cons c p ih => simp [stripPrefixCI, ih]

theorem stripPrefixCI_some_drop (p : List Char) : ∀ cs r,
    stripPrefixCI p cs = some r → r = cs.drop p.length := by
  induction p with
  | nil =>
    intro cs r h
    simp [stripPrefixCI] at h
    simp [h]
  | cons c p ih =>
    intro cs r h
    cases cs with
    | nil => simp [stripPrefixCI] at h
    | cons d ds =>
      by_cases hc : (c.toLower == d.toLower) = true
      · simp [stripPrefixCI, hc] at h
        simpa using ih ds r h
      · simp [stripPrefixCI, hc] at h

theorem oldl_not_boundary : ∀ c ∈ OLDl, ¬(c = ':') ∧ ¬(c = '/') := by decide

theorem oldl_not_boundary_nl : ∀ c ∈ OLDl, ¬(c = ':') ∧ ¬(c = '/') ∧ ¬(c = '\n') := by
  decide

theorem oldl_length : OLDl.length = 14 := by decide

theorem scanHost_cons (acc : List Char) (c : Char) (cs : List Char) :
    scanHost acc (c :: cs) =
      if hostChar c then
        match stripPrefixCI OLDl cs with
        | some rest =>
          if boundaryOk rest then some ((c :: acc).reverse, rest)
          else scanHost (c :: acc) cs
        | none => scanHost (c :: acc) cs
      else none := rfl

theorem findRepl_cons (c : Char) (cs : List Char) :
    findRepl (c :: cs) =
      match tryAt (c :: cs) with
      | some res => some res
      | none => (findRepl cs).map (fun r => c :: r) := rfl

/-- The lazy host scan over a run of clean host characters ending right before
the old suffix finds exactly that occurrence. -/
theorem scanHost_full (t : List Char) (hb : boundaryOk t = true) :
    ∀ (g2 acc : List Char), g2 ≠ [] →
    (∀ c ∈ g2, c ≠ '/' ∧ c ≠ '@' ∧ c ≠ ':') →
    scanHost acc (g2 ++ OLDl ++ t) = some (acc.reverse ++ g2, t) := by
  intro g2
  induction g2 with
  | nil => intro acc h _; exact absurd rfl h
  | cons c g2 ih =>
    intro acc _ hchars
    have hcm := hchars c (List.mem_cons_self _ _)
    have hc : hostChar c = true := by
      simp [hostChar, hcm.1, hcm.2.1]
    cases g2 with
    | nil =>
      simp [scanHost, hc, stripPrefixCI_append_self, hb]
    | cons d g2' =>
      have hrec := ih (c :: acc) (by simp)
        (fun x hx => hchars x (List.mem_cons_of_mem _ hx))
      simp only [List.cons_append, List.append_assoc, List.reverse_cons,
        List.singleton_append] at hrec ⊢
      rw [scanHost_cons, if_pos hc]
      rcases h1 : stripPrefixCI OLDl (d :: (g2' ++ (OLDl ++ t))) with _ | rest
      · simpa using hrec
      · have hform : (d :: (g2' ++ (OLDl ++ t))) = ((d :: g2') ++ OLDl) ++ t := by
          simp
        have hrest : rest = (((d :: g2') ++ OLDl) ++ t).drop 14 := by
          have h2 := stripPrefixCI_some_drop OLDl _ _ h1
          rw [oldl_length] at h2
          rw [h2, hform]
        have hlen : 14 ≤ ((d :: g2') ++ OLDl).length := by
          rw [List.length_append, oldl_length]
          omega
        have hsplit : (((d :: g2') ++ OLDl) ++ t).drop 14 =
            ((d :: g2') ++ OLDl).drop 14 ++ t := by
          rw [List.drop_append_eq_append_drop, Nat.sub_eq_zero_of_le hlen, List.drop_zero]
        have hne : ((d :: g2') ++ OLDl).drop 14 ≠ [] := by
          intro hnil
          have h3 := congrArg List.length hnil
          rw [List.length_drop, List.length_append, List.length_cons, oldl_length] at h3
          simp only [List.length_nil] at h3
          omega
        rcases hx : ((d :: g2') ++ OLDl).drop 14 with _ | ⟨x, xs⟩
        · exact absurd hx hne
        · have hxmem : x ∈ (d :: g2') ++ OLDl :=
            List.drop_subset 14 _ (hx ▸ List.mem_cons_self x xs)
          have hxnb : ¬(x = ':') ∧ ¬(x = '/') := by
            rcases List.mem_append.mp hxmem with hm | hm
            · have h4 := hchars x (List.mem_cons_of_mem _ hm)
              exact ⟨h4.2.2, h4.1⟩
            · exact oldl_not_boundary x hm
          have hbf : boundaryOk rest = false := by
            rw [hrest, hsplit, hx]
            rcases hxt : xs ++ t with _ | ⟨y, ys⟩
            · have hxs : xs = [] := (List.append_eq_nil.mp hxt).1
              have ht0 : t = [] := (List.append_eq_nil.mp hxt).2
              subst hxs
              subst ht0
              have hg20 : g2' = [] := by
                have hl := congrArg List.length hx
                rw [List.length_drop, List.length_append, List.length_cons,
                  oldl_length] at hl
                simp only [List.length_cons, List.length_nil] at hl
                exact List.eq_nil_of_length_eq_zero (by omega)
              subst hg20
              have hcomp : List.drop 14 ((d :: ([] : List Char)) ++ OLDl) =
                  List.drop 13 OLDl := rfl
              rw [hcomp] at hx
              have hxold : x ∈ OLDl := by
                apply List.drop_subset 13
                rw [hx]
                exact List.mem_cons_self _ _
              have hxn := oldl_not_boundary_nl x hxold
              simp [boundaryOk, hxn.1, hxn.2.1, hxn.2.2]
            · rw [List.cons_append, hxt]
              simp [boundaryOk, hxnb.1, hxnb.2]
          simp only [hbf]
          simp [hrec]

theorem schemeSplit_https (rest : List Char) :
    schemeSplit (HTTPSl ++ rest) = some (HTTPSl, rest) := by
  have h := stripPrefixCI_append_self HTTPSl rest
  have h8 : HTTPSl.length = 8 := by decide
  rw [schemeSplit, h]
  simp [List.take_left' h8, List.drop_left' h8]

theorem schemeSplit_http (rest : List Char) :
    schemeSplit (HTTPl ++ rest) = some (HTTPl, rest) := by
  have hno : stripPrefixCI HTTPSl (HTTPl ++ rest) = none := rfl
  have h := stripPrefixCI_append_self HTTPl rest
  have h7 : HTTPl.length = 7 := by decide
  rw [schemeSplit, hno, h]
  simp [List.take_left' h7, List.drop_left' h7]

/-- C3 (amended): for strings of the form
`scheme ++ hostRun ++ old ++ tail` where the scheme is `http://` or
`https://`, the host run is a nonempty block of characters other than `/`,
`@`, `:`, and the tail starts with `:`, `/` or is empty, the rule rewrites
exactly that occurrence: the result is `scheme ++ hostRun ++ new ++ tail`.
(The spec's wording also admits scheme-less prefixes ending at a label
boundary; those are not matched — see the counterexample.) -/
theorem rewrite_replaces_bounded_suffix (sch g2 t : List Char)
    (hs : sch = HTTPl ∨ sch = HTTPSl)
    (hg : g2 ≠ [])
    (hchars : ∀ c ∈ g2, c ≠ '/' ∧ c ≠ '@' ∧ c ≠ ':')
    (hb : boundaryOk t = true) :
    findRepl (sch ++ g2 ++ OLDl ++ t) = some (sch ++ g2 ++ NEWl ++ t) := by
  have hscan2 : scanHost [] (g2 ++ (OLDl ++ t)) = some (g2, t) := by
    have h0 := scanHost_full t hb g2 [] hg hchars
    simpa [List.append_assoc] using h0
  have htry : tryAt (sch ++ (g2 ++ OLDl ++ t)) = some (sch ++ (g2 ++ (NEWl ++ t))) := by
    rcases hs with h | h <;> subst h
    · rw [tryAt, schemeSplit_http]
      simp [hscan2]
    · rw [tryAt, schemeSplit_https]
      simp [hscan2]
  rcases hs with h | h <;> subst h <;>
    simp only [HTTPl, HTTPSl, List.cons_append, List.nil_append,
      List.append_assoc] at htry ⊢ <;>
    rw [findRepl_cons, htry]

/-- The spec's own wording of a valid left-hand host boundary: the old suffix
"preceded by `://` + hostname characters, or by `.`", stated of the prefix
before the old suffix. -/
def spec_prefix_ok (p : List Char) : Bool :=
  (p.getLast? == some '.') || containsSub [':', '/', '/'] p

/-- C3 counterexample: `"sub."` ends at a label boundary in the spec's own
sense and the tail `"/x"` is boundary-valid, yet the rule reports no match on
`prefix ++ old ++ tail` (the claim demands `some "sub.test-domain.co.uk/x"`):
without a URL scheme nothing is ever matched. -/
theorem schemeless_valid_prefix_cex :
    spec_prefix_ok "sub.".toList = true ∧ boundaryOk "/x".toList = true ∧
    replace_host_suffix_in_url "sub.test-domain.co/x" = none := by decide

theorem rewrite_replaces_bounded_suffix_witness :
    findRepl (HTTPSl ++ "a.".toList ++ OLDl ++ "/p".toList) =
      some (HTTPSl ++ "a.".toList ++ NEWl ++ "/p".toList) :=
  rewrite_replaces_bounded_suffix HTTPSl "a.".toList "/p".toList (Or.inr rfl)
    (by decide) (by decide) (by decide)

/-! ## C4: the cookie host rule is a plain suffix rule -/

/-- C4 (amended): for a host `dot? ++ core`, the cookie rule strips and
re-attaches the leading `'.'` separator and otherwise applies a PLAIN
case-insensitive `endswith` test on `core`, with no label-boundary anchoring:
whenever `core` merely ends with the old suffix — whole host, after a `.`, or
in the middle of a label alike — the suffix is replaced. -/
theorem cookie_host_suffix_rule (d : Bool) (core : List Char)
    (h1 : core ≠ []) (h2 : core.head? ≠ some '.') :
    replaceCookieHostL ((if d then ['.'] else []) ++ core) =
      (if endsWithCI OLDl core then
        some ((if d then ['.'] else []) ++ core.take (core.length - OLDl.length) ++ NEWl)
      else none) := by
  cases d
  · cases core with
    | nil => exact absurd rfl h1
    | cons c cs =>
      have hcd : (c == '.') = false := by
        simp only [List.head?] at h2
        simp only [ne_eq, Option.some.injEq] at h2
        simp [h2]
      simp [replaceCookieHostL, hcd]
  · simp [replaceCookieHostL]

theorem cookie_host_suffix_rule_witness :
    replaceCookieHostL ((if true then ['.'] else []) ++ "a.test-domain.co".toList) =
      (if endsWithCI OLDl "a.test-domain.co".toList then
        some ((if true then ['.'] else []) ++
          "a.test-domain.co".toList.take
            ("a.test-domain.co".toList.length - OLDl.length) ++ NEWl)
      else none) :=
  cookie_host_suffix_rule true "a.test-domain.co".toList (by decide) (by decide)

/-- C4 counterexample: in `.nottest-domain.co` the old suffix occurs only in
the middle of the label `nottest-domain`, not at a label boundary, yet the
cookie rule rewrites the host. -/
theorem cookie_host_no_left_boundary_cex :
    replace_cookie_host ".nottest-domain.co" = some ".nottest-domain.co.uk" := by decide

/-! ## C8: idempotence -/

theorem not_endsWith_after_rewrite (a : List Char) :
    endsWithCI OLDl (a ++ NEWl) = false := by
  have h1 : OLDl.reverse = 'o' :: "c.niamod-tset".toList := by decide
  have h2 : NEWl.reverse = 'k' :: "u.oc.niamod-tset".toList := by decide
  have h3 : ('o'.toLower == 'k'.toLower) = false := by decide
  rw [endsWithCI, List.reverse_append, h2, h1]
  simp [stripPrefixCI, h3]

theorem not_endsWith_after_rewrite' (c : Char) (a : List Char) :
    endsWithCI OLDl (c :: (a ++ NEWl)) = false := by
  have h0 := not_endsWith_after_rewrite (c :: a)
  simpa using h0

/-- Anything that ends in the new suffix is rejected by the cookie rule. -/
theorem replaceCookieHostL_append_NEWl (y : List Char) :
    replaceCookieHostL (y ++ NEWl) = none := by
  cases y with
  | nil => decide
  | cons c a =>
    by_cases hc : (c == '.') = true
    · simp [replaceCookieHostL, hc, not_endsWith_after_rewrite]
    · simp [replaceCookieHostL, hc, not_endsWith_after_rewrite' c a]

theorem replaceCookieHostL_idem (x l : List Char) (hx : replaceCookieHostL x = some l) :
    replaceCookieHostL l = none := by
  cases x with
  | nil => simp [replaceCookieHostL] at hx
  | cons c cs =>
    simp only [replaceCookieHostL] at hx
    split at hx <;> split at hx <;>
      first
        | (rw [Option.some.injEq] at hx
           subst hx
           exact replaceCookieHostL_append_NEWl _)
        | exact absurd hx (by simp)

/-- C8 (amended): the cookie-host rewrite is idempotent — a host produced by
a first-pass rewrite never matches again, so a second pass leaves every
cookie host alone.  The URL rule does NOT have this property in general,
because each application replaces only the first boundary-valid occurrence: a
value holding several scheme-prefixed occurrences of the old suffix is
rewritten again on the second pass (see the counterexample). -/
theorem cookie_rewrite_idempotent (h r : String)
    (hr : replace_cookie_host h = some r) : replace_cookie_host r = none := by
  obtain ⟨l, hl, hmk⟩ := Option.map_eq_some'.mp hr
  subst hmk
  have hnone : replaceCookieHostL l = none := replaceCookieHostL_idem h.toList l hl
  rw [replace_cookie_host]
  have htl : (String.mk l).toList = l := rfl
  rw [htl, hnone]
  rfl

theorem cookie_rewrite_idempotent_witness :
    replace_cookie_host ".a.test-domain.co" = some ".a.test-domain.co.uk" ∧
    replace_cookie_host ".a.test-domain.co.uk" = none :=
  ⟨by decide, cookie_rewrite_idempotent ".a.test-domain.co" ".a.test-domain.co.uk" (by decide)⟩

/-- C8 counterexample: a history value holding two scheme-prefixed
occurrences of the old suffix.  The first mutate pass rewrites only the first
occurrence, and the rule still matches the result, so a second mutate pass
updates the same store again (`updated_count = 1 ≠ 0`). -/
theorem second_pass_updates_again_cex :
    replace_host_suffix_in_url "https://a.test-domain.co/?u=https://b.test-domain.co/" =
      some "https://a.test-domain.co.uk/?u=https://b.test-domain.co/" ∧
    replace_host_suffix_in_url "https://a.test-domain.co.uk/?u=https://b.test-domain.co/" =
      some "https://a.test-domain.co.uk/?u=https://b.test-domain.co.uk/" ∧
    (rewrite_history
        (rewrite_history [(1, "https://a.test-domain.co/?u=https://b.test-domain.co/")]
          [] false none none).1.1
        [] false none none).2 = .ok (1, 1) := by
  refine ⟨by decide, by decide, by rfl⟩

/-! ## C10: candidate and updated counts -/

theorem applyUpdates_updated (wu : List (CookieRow × String)) :
    ∀ store upd conf, (applyUpdates wu store upd conf).2.1 = upd + wu.length := by
  induction wu with
  | nil => intro store upd conf; simp [applyUpdates]
  | cons p rest ih =>
    intro store upd conf
    obtain ⟨r, nh⟩ := p
    rcases hp : probe store r.name nh r.path r.oa with _ | v <;>
      simp [applyUpdates, hp, ih] <;> omega

theorem rewriteField_le (v : Option String) (m : Bool) :
    (rewriteField v m).2.2 ≤ (rewriteField v m).2.1 := by
  rcases v with _ | s
  · simp [rewriteField]
  · rw [rewriteField]
    split
    · show (if ((replace_host_suffix_in_url s).getD s) ≠ s then 1 else 0) ≤ 1
      split <;> simp
    · simp

theorem rewriteLogin_le (l : Login) : (rewriteLogin l).2.2 ≤ (rewriteLogin l).2.1 := by
  have h1 := rewriteField_le l.hostname false
  have h2 := rewriteField_le l.formSubmitURL false
  have h3 := rewriteField_le l.httpRealm true
  rcases hf1 : rewriteField l.hostname false with ⟨v1, c1, u1⟩
  rcases hf2 : rewriteField l.formSubmitURL false with ⟨v2, c2, u2⟩
  rcases hf3 : rewriteField l.httpRealm true with ⟨v3, c3, u3⟩
  rw [hf1] at h1
  rw [hf2] at h2
  rw [hf3] at h3
  simp at h1 h2 h3
  simp [rewriteLogin, hf1, hf2, hf3]
  omega

theorem rewriteLogins_le (ls : List Login) :
    (rewriteLogins ls).2.2 ≤ (rewriteLogins ls).2.1 := by
  induction ls with
  | nil => simp [rewriteLogins]
  | cons l rest ih =>
    have h1 := rewriteLogin_le l
    rcases hf : rewriteLogin l with ⟨l', c, u⟩
    rcases hr : rewriteLogins rest with ⟨rest', cr, ur⟩
    rw [hf] at h1
    rw [hr] at ih
    simp at h1 ih
    simp [rewriteLogins, hf, hr]
    omega

/-- C10 (amended): in mutate mode, for history, bookmarks and form history
the reported candidate count is the number of rows whose field contains the
old suffix (case-insensitively, the `LIKE` pre-filter) — including rows the
rule does not change — and the updated count is at most the candidate count.
For the credential store the candidate count is per qualifying field and
dominates the updated count.  For the cookie store, however, the candidate
count is NOT the raw-substring count: it counts exactly the rows whose host
the cookie rule rewrites to a different value, and it coincides with the
updated count. -/
theorem counts_contract (ps : List (Nat × String)) (os : List (Nat × String × String))
    (bm : List Nat) (fh : List (Nat × String)) (cs : List CookieRow) (ls : List Login) :
    (rewrite_history ps os false none none).2 =
      .ok ((histRows ps).length, histUpdated ps) ∧
    histUpdated ps ≤ (histRows ps).length ∧
    (∃ u, (rewrite_bookmarks ps bm false none).2 = .ok ((bmkRows ps bm).length, u) ∧
      u ≤ (bmkRows ps bm).length) ∧
    (∃ u, (rewrite_form_history fh false none).2 =
        .ok ((fh.filter (fun r => containsCI OLDl r.2.toList)).length, u) ∧
      u ≤ (fh.filter (fun r => containsCI OLDl r.2.toList)).length) ∧
    (rewrite_cookies cs false none).2.1 = (willUpdate cs).length ∧
    (rewrite_cookies cs false none).2.2.1 = (willUpdate cs).length ∧
    (∃ c u, (rewrite_logins ls false none).2 = .ok (c, u) ∧ u ≤ c) := by
  refine ⟨rfl, List.length_filterMap_le _ _, ⟨_, rfl, List.length_filterMap_le _ _⟩,
    ⟨_, rfl, List.length_filterMap_le _ _⟩, ?_, ?_, ?_⟩
  · rcases ha : applyUpdates (willUpdate cs) cs 0 0 with ⟨store', upd, conf⟩
    simp [rewrite_cookies, ha]
  · rcases ha : applyUpdates (willUpdate cs) cs 0 0 with ⟨store', upd, conf⟩
    have hu := applyUpdates_updated (willUpdate cs) cs 0 0
    rw [ha] at hu
    simp at hu
    simp [rewrite_cookies, ha, hu]
  · have hle := rewriteLogins_le ls
    rcases hr : rewriteLogins ls with ⟨ls', c, u⟩
    rw [hr] at hle
    exact ⟨c, u, by simp [rewrite_logins, hr], hle⟩

/-- C10 counterexample: a cookie row whose host contains the old suffix as a
raw substring (it matches the `LIKE` pre-filter) but which the rule leaves
alone: the cookie rewriter reports `candidate_count = 0`, not `1` as the
claim requires. -/
theorem cookie_candidate_not_raw_substring_cex :
    containsCI OLDl "x.test-domain.co.uk".toList = true ∧
    rewrite_cookies [⟨1, "n", "x.test-domain.co.uk", "/", ""⟩] false none =
      ([⟨1, "n", "x.test-domain.co.uk", "/", ""⟩], 0, 0, 0) := by decide

/-! ## C9: error propagation through the orchestrator -/

/-- C9 (amended): errors raised in the history, bookmarks, form-history or
login rewrites propagate to the orchestrator, which stops the run with the
error, leaves the failing store rolled back and later stores untouched, and
keeps earlier committed stores committed.  An error inside the cookie rewrite,
however, is swallowed: the cookie transaction is rolled back and reported as
`(0, 0)`, and the run CONTINUES with the login store. -/
theorem orchestrator_error_policy (p : Profile) (e : Err) :
    ((rewrite_all p false ⟨none, none, none, some e, none, none⟩).2.isOk = true ∧
      (rewrite_all p false ⟨none, none, none, some e, none, none⟩).1.cookies =
        p.cookies ∧
      (rewrite_all p false ⟨none, none, none, some e, none, none⟩).1.logins =
        (rewrite_logins p.logins false none).1) ∧
    rewrite_all p false ⟨some e, none, none, none, none, none⟩ = (p, .error e) ∧
    ((rewrite_all p false ⟨none, none, none, none, some e, none⟩).2 = .error e ∧
      (rewrite_all p false ⟨none, none, none, none, some e, none⟩).1.logins =
        p.logins ∧
      (rewrite_all p false ⟨none, none, none, none, some e, none⟩).1.cookies =
        (rewrite_cookies p.cookies false none).1 ∧
      (rewrite_all p false ⟨none, none, none, none, some e, none⟩).1.places =
        (rewrite_bookmarks (applyUrlRewrites p.places) p.bmarks false none).1) := by
  rcases hc : applyUpdates (willUpdate p.cookies) p.cookies 0 0 with ⟨cst, cu, cc⟩
  rcases hlg : rewriteLogins p.logins with ⟨lg, lc, lu⟩
  refine ⟨⟨?_, ?_, ?_⟩, ?_, ?_, ?_, ?_, ?_⟩ <;>
    simp [rewrite_all, rewrite_history, rewrite_bookmarks, rewrite_form_history,
      rewrite_cookies, rewrite_logins, Except.isOk, Except.toBool, hc, hlg]

def cexProfile : Profile :=
  { places := []
    origins := []
    bmarks := []
    formhist := []
    cookies := [rowA, rowB]
    logins := [{ hostname := some "https://a.test-domain.co/"
                 formSubmitURL := none
                 httpRealm := none }] }

/-- C9 counterexample: with the store layer failing inside the cookie rewrite
of a concrete profile, the run does NOT stop and no error is surfaced: the
cookie rewriter swallows the failure and reports `(0, 0)`, and the
orchestrator continues and rewrites the login store. -/
theorem cookie_error_swallowed_cex :
    rewrite_all cexProfile false ⟨none, none, none, some Err.dbError, none, none⟩ =
      ({ cexProfile with
          logins := [{ hostname := some "https://a.test-domain.co.uk/"
                       formSubmitURL := none
                       httpRealm := none }] }, .ok (1, 1)) := by rfl

/-! ## C1: the cookie rewrite preserves the uniqueness invariant -/

theorem sethost_id (rid : Nat) (nh : String) (x : CookieRow) :
    (if x.id = rid then { x with host := nh } else x).id = x.id := by
  split <;> rfl

theorem sethost_name (rid : Nat) (nh : String) (x : CookieRow) :
    (if x.id = rid then { x with host := nh } else x).name = x.name := by
  split <;> rfl

theorem sethost_path (rid : Nat) (nh : String) (x : CookieRow) :
    (if x.id = rid then { x with host := nh } else x).path = x.path := by
  split <;> rfl

theorem sethost_oa (rid : Nat) (nh : String) (x : CookieRow) :
    (if x.id = rid then { x with host := nh } else x).oa = x.oa := by
  split <;> rfl

theorem keyNe_symm : Symmetric (fun a b : CookieRow => keyOf a ≠ keyOf b) :=
  fun _ _ h e => h e.symm

theorem idNe_symm : Symmetric (fun a b : CookieRow => a.id ≠ b.id) :=
  fun _ _ h e => h e.symm

/-- Field coherence: every live row carrying the id of a pending update has
that update's `name`, `path` and `originAttributes` (its host may differ). -/
def FieldsOk (wu : List (CookieRow × String)) (store : List CookieRow) : Prop :=
  ∀ p ∈ wu, ∀ x ∈ store, x.id = p.1.id →
    x.name = p.1.name ∧ x.path = p.1.path ∧ x.oa = p.1.oa

theorem fieldsOk_tail {p : CookieRow × String} {wu : List (CookieRow × String)}
    {store : List CookieRow} (h : FieldsOk (p :: wu) store) : FieldsOk wu store :=
  fun q hq => h q (List.mem_cons_of_mem _ hq)

theorem fieldsOk_of_subset (wu : List (CookieRow × String))
    (store store' : List CookieRow) (h : FieldsOk wu store) (hsub : store' ⊆ store) :
    FieldsOk wu store' :=
  fun p hp x hx => h p hp x (hsub hx)

theorem fieldsOk_map (wu : List (CookieRow × String)) (store : List CookieRow)
    (rid : Nat) (nh : String) (h : FieldsOk wu store) :
    FieldsOk wu (store.map (fun x => if x.id = rid then { x with host := nh } else x)) := by
  intro p hp x hx hid
  obtain ⟨y, hy, hxy⟩ := List.mem_map.mp hx
  subst hxy
  rw [sethost_id] at hid
  have hfy := h p hp y hy hid
  rw [sethost_name, sethost_path, sethost_oa]
  exact hfy

theorem nodupIds_map (store : List CookieRow) (rid : Nat) (nh : String)
    (h : nodupIds store) :
    nodupIds (store.map (fun x => if x.id = rid then { x with host := nh } else x)) := by
  refine (List.pairwise_map).mpr ?_
  exact h.imp (fun hab => by simpa [sethost_id] using hab)

theorem probe_eq (store : List CookieRow) (nm nh pa o : String) (v : CookieRow)
    (h : probe store nm nh pa o = some v) :
    v ∈ store ∧ v.name = nm ∧ v.host = nh ∧ v.path = pa ∧ v.oa = o := by
  have hm := List.mem_of_find?_eq_some h
  have hp := List.find?_some h
  simp only [Bool.and_eq_true, beq_iff_eq] at hp
  exact ⟨hm, hp.1.1.1, hp.1.1.2, hp.1.2, hp.2⟩

theorem probe_none_key (store : List CookieRow) (r : CookieRow) (nh : String)
    (h : probe store r.name nh r.path r.oa = none) :
    ∀ x ∈ store, keyOf x ≠ (r.name, nh, r.path, r.oa) := by
  intro x hx hk
  have hnone := List.find?_eq_none.mp h x hx
  simp only [keyOf, Prod.mk.injEq] at hk
  simp [hk.1, hk.2.1, hk.2.2.1, hk.2.2.2] at hnone

/-- Updating the host of the (unique) row with id `r.id` to `nh` keeps all
keys pairwise distinct, provided no live row already holds the target key. -/
theorem uniqKeys_map_sethost (store : List CookieRow) (r : CookieRow) (nh : String)
    (h1 : nodupIds store) (h2 : uniqKeys store)
    (hfld : ∀ x ∈ store, x.id = r.id → x.name = r.name ∧ x.path = r.path ∧ x.oa = r.oa)
    (htgt : ∀ x ∈ store, keyOf x ≠ (r.name, nh, r.path, r.oa)) :
    uniqKeys (store.map (fun x => if x.id = r.id then { x with host := nh } else x)) := by
  refine (List.pairwise_map).mpr ?_
  have hcomb := h2.and h1
  refine hcomb.imp_of_mem ?_
  intro a b ha hb hab
  obtain ⟨hk, hid⟩ := hab
  by_cases haid : a.id = r.id <;> by_cases hbid : b.id = r.id
  · exact absurd (haid.trans hbid.symm) hid
  · simp only [if_pos haid, if_neg hbid]
    have hfa := hfld a ha haid
    intro hkeq
    refine htgt b hb ?_
    rw [← hkeq]
    simp [keyOf, hfa.1, hfa.2.1, hfa.2.2]
  · simp only [if_neg haid, if_pos hbid]
    have hfb := hfld b hb hbid
    intro hkeq
    refine htgt a ha ?_
    rw [hkeq]
    simp [keyOf, hfb.1, hfb.2.1, hfb.2.2]
  · simp only [if_neg haid, if_neg hbid]
    exact hk

theorem applyUpdates_uniq (wu : List (CookieRow × String)) :
    ∀ store upd conf, nodupIds store → uniqKeys store → FieldsOk wu store →
    nodupIds (applyUpdates wu store upd conf).1 ∧
    uniqKeys (applyUpdates wu store upd conf).1 := by
  induction wu with
  | nil =>
    intro store upd conf h1 h2 _
    exact ⟨h1, h2⟩
  | cons p rest ih =>
    intro store upd conf h1 h2 h3
    obtain ⟨r, nh⟩ := p
    have hfr : ∀ x ∈ store, x.id = r.id →
        x.name = r.name ∧ x.path = r.path ∧ x.oa = r.oa :=
      fun x hx hid => h3 (r, nh) (List.mem_cons_self _ _) x hx hid
    rcases hp : probe store r.name nh r.path r.oa with _ | v
    · simp only [applyUpdates, hp]
      exact ih _ _ _ (nodupIds_map _ _ _ h1)
        (uniqKeys_map_sethost _ r nh h1 h2 hfr (probe_none_key _ _ _ hp))
        (fieldsOk_map _ _ _ _ (fieldsOk_tail h3))
    · simp only [applyUpdates, hp]
      obtain ⟨hvmem, hvn, hvh, hvp, hvo⟩ := probe_eq _ _ _ _ _ _ hp
      have hsub : List.Sublist (store.filter (fun x => !(x.id == v.id))) store :=
        List.filter_sublist store
      have h1f : nodupIds (store.filter (fun x => !(x.id == v.id))) := h1.sublist hsub
      have h2f : uniqKeys (store.filter (fun x => !(x.id == v.id))) := h2.sublist hsub
      have hfldf : ∀ x ∈ store.filter (fun x => !(x.id == v.id)), x.id = r.id →
          x.name = r.name ∧ x.path = r.path ∧ x.oa = r.oa :=
        fun x hx hid => hfr x (List.mem_of_mem_filter hx) hid
      have htgtf : ∀ x ∈ store.filter (fun x => !(x.id == v.id)),
          keyOf x ≠ (r.name, nh, r.path, r.oa) := by
        intro x hx hk
        have hxs : x ∈ store := List.mem_of_mem_filter hx
        have hxid : x.id ≠ v.id := by
          have hfl := List.of_mem_filter hx
          simpa using hfl
        have hkv : keyOf v = (r.name, nh, r.path, r.oa) := by
          simp [keyOf, hvn, hvh, hvp, hvo]
        have hxv : x ≠ v := fun hxe => hxid (by rw [hxe])
        exact (h2.forall keyNe_symm hxs hvmem hxv) (hk.trans hkv.symm)
      exact ih _ _ _ (nodupIds_map _ _ _ h1f)
        (uniqKeys_map_sethost _ r nh h1f h2f hfldf htgtf)
        (fieldsOk_map _ _ _ _
          (fieldsOk_of_subset _ _ _ (fieldsOk_tail h3) hsub.subset))

theorem willUpdate_mem (store : List CookieRow) (p : CookieRow × String)
    (hp : p ∈ willUpdate store) : p.1 ∈ store := by
  obtain ⟨a, ha, hfa⟩ := List.mem_filterMap.mp hp
  have ha' : a ∈ store := List.mem_of_mem_filter ha
  rcases hr : replace_cookie_host a.host with _ | nh <;> rw [hr] at hfa
  · simp at hfa
  · by_cases hne : nh = a.host
    · simp [hne] at hfa
    · simp [hne] at hfa
      rw [← hfa]
      exact ha'

/-- C1: for every cookie store with pairwise-distinct ids satisfying the
uniqueness invariant (at most one live row per Uniqueness Key), the
mutate-mode cookie rewrite preserves the invariant: colliding rows are
deleted before the rewritten candidate is updated, so the incoming record
wins.  In the two-row scenario of spec section 8 exactly one row with the
colliding key survives, its host equals the rewritten value of row A, and
`conflicts_resolved_count = 1`. -/
theorem cookie_rewrite_preserves_uniqueness (store : List CookieRow)
    (h1 : nodupIds store) (h2 : uniqKeys store) :
    uniqKeys (rewrite_cookies store false none).1 ∧
    rewrite_cookies [rowA, rowB] false none = ([rowA'], 1, 1, 1) := by
  constructor
  · have h3 : FieldsOk (willUpdate store) store := by
      intro p hp x hx hid
      have hpmem : p.1 ∈ store := willUpdate_mem store p hp
      by_cases hxe : x = p.1
      · subst hxe
        exact ⟨rfl, rfl, rfl⟩
      · exact absurd hid (h1.forall idNe_symm hx hpmem hxe)
    have hu := applyUpdates_uniq (willUpdate store) store 0 0 h1 h2 h3
    rcases ha : applyUpdates (willUpdate store) store 0 0 with ⟨store', upd, conf⟩
    rw [ha] at hu
    simpa [rewrite_cookies, ha] using hu.2
  · decide

theorem cookie_rewrite_preserves_uniqueness_witness :
    uniqKeys (rewrite_cookies [rowA, rowB] false none).1 ∧
    rewrite_cookies [rowA, rowB] false none = ([rowA'], 1, 1, 1) :=
  cookie_rewrite_preserves_uniqueness [rowA, rowB] (by decide) (by decide)
